import Mathlib

/-!
# crr-server: verification of the core data model and operations

A shallow embedding of the core of the `crr-server` repository (a
multi-tenant replication server for CR-SQLite databases), together with
theorems settling the specification's claims about it.

Embedded components (file references give the Rust source of each
definition):
* the permission model (`src/auth/permissions.rs`);
* change application (`src/database/changes/post.rs`);
* the two paged change readers (`src/database/changes/stream.rs` and
  `src/database/changes/change_manager.rs`);
* the live phase of the change stream (`src/database/changes/stream.rs`);
* the migration rewriter and reader (`src/database/migrate.rs`);
* the error-to-HTTP translation (`src/error.rs`);
* Changeset JSON (de)serialization (`src/database/changes/changeset.rs`,
  `src/database/value.rs`, `src/serde_base64.rs`);
* permission resolution (`src/auth/database.rs`).
-/

namespace CrrServer

/-! ## Permission model (`src/auth/permissions.rs`) -/

/-- `PartialPermissions`: one CRUD capability set. -/
structure PartialPermissions where
  read : Bool
  insert : Bool
  update : Bool
  delete : Bool
deriving DecidableEq, Repr

/-- `PartialPermissions::is_empty`. -/
def PartialPermissions.is_empty (p : PartialPermissions) : Bool :=
  !p.read && !p.insert && !p.update && !p.delete

/-- `ObjectPermissions`: a table-level capability entry — either full or a
partial CRUD set. -/
inductive ObjectPermissions where
  | Full : ObjectPermissions
  | Partial (p : PartialPermissions) : ObjectPermissions
deriving DecidableEq, Repr

/-- `ObjectPermissions::full`. -/
def ObjectPermissions.full : ObjectPermissions → Bool
  | .Full => true
  | _ => false

/-- `ObjectPermissions::read`. -/
def ObjectPermissions.read : ObjectPermissions → Bool
  | .Full => true
  | .Partial p => p.read

/-- `ObjectPermissions::insert`. -/
def ObjectPermissions.insert : ObjectPermissions → Bool
  | .Full => true
  | .Partial p => p.insert

/-- `ObjectPermissions::update`. -/
def ObjectPermissions.update : ObjectPermissions → Bool
  | .Full => true
  | .Partial p => p.update

/-- `ObjectPermissions::delete`. -/
def ObjectPermissions.delete : ObjectPermissions → Bool
  | .Full => true
  | .Partial p => p.delete

/-- `DatabasePermissions`: full access, or a database-level capability set
plus a map from table name to table-level capabilities.  The Rust `HashMap`
is embedded as an association list with unique keys; `tables.lookup` is the
map lookup. -/
inductive DatabasePermissions where
  | Full : DatabasePermissions
  | Partial (database : PartialPermissions)
      (tables : List (String × ObjectPermissions)) : DatabasePermissions
deriving DecidableEq, Repr

/-- `DatabasePermissions::full`. -/
def DatabasePermissions.full : DatabasePermissions → Bool
  | .Full => true
  | _ => false

/-- `DatabasePermissions::is_empty`. -/
def DatabasePermissions.is_empty : DatabasePermissions → Bool
  | .Full => false
  | .Partial database tables => database.is_empty && tables.isEmpty

/-- `DatabasePermissions::read_table`: database-level read, or the table
entry's read capability (`unwrap_or(false)` when the table is absent). -/
def DatabasePermissions.read_table : DatabasePermissions → String → Bool
  | .Full, _ => true
  | .Partial database tables, table_name =>
    database.read || ((tables.lookup table_name).map (·.read)).getD false

/-- `DatabasePermissions::insert_table`. -/
def DatabasePermissions.insert_table : DatabasePermissions → String → Bool
  | .Full, _ => true
  | .Partial database tables, table_name =>
    database.insert || ((tables.lookup table_name).map (·.insert)).getD false

/-- `DatabasePermissions::update_table`. -/
def DatabasePermissions.update_table : DatabasePermissions → String → Bool
  | .Full, _ => true
  | .Partial database tables, table_name =>
    database.update || ((tables.lookup table_name).map (·.update)).getD false

/-- `DatabasePermissions::delete_table`. -/
def DatabasePermissions.delete_table : DatabasePermissions → String → Bool
  | .Full, _ => true
  | .Partial database tables, table_name =>
    database.delete || ((tables.lookup table_name).map (·.delete)).getD false

/-- `AllowedTables`: the result of `readable_tables`. -/
inductive AllowedTables where
  | All : AllowedTables
  | Some (tables : List String) : AllowedTables
deriving DecidableEq, Repr

/-- `AllowedTables::is_empty`. -/
def AllowedTables.is_empty : AllowedTables → Bool
  | .All => false
  | .Some tables => tables.isEmpty

/-- `DatabasePermissions::readable_tables` as the source implements it: for a
partial permission without database-level read it returns `tables.keys()`,
i.e. every key of the table map. -/
def DatabasePermissions.readable_tables : DatabasePermissions → AllowedTables
  | .Full => .All
  | .Partial database tables =>
    if database.read then .All
    else .Some (tables.map Prod.fst)

/-- The spec's version of `readable_tables`, for comparison: "the explicit
set of keys with any table-level read" — only tables whose entry's read
capability holds. -/
def readable_tables_of_spec : DatabasePermissions → AllowedTables
  | .Full => .All
  | .Partial database tables =>
    if database.read then .All
    else .Some ((tables.filter (fun t => t.2.read)).map Prod.fst)

/-! ## Value and Changeset (`src/database/value.rs`,
`src/database/changes/changeset.rs`) -/

/-- `Value` (src/database/value.rs): tagged union over the five SQLite
storage classes.  The `f64` payload of `Real` is modelled by `Rat`: every
finite IEEE-754 double is an exact rational, and `serde_json` prints a
finite double with enough digits to parse back bit-identically, so on the
finite doubles (the only ones SQLite's REAL column yields — SQLite stores
NaN as NULL) the JSON round trip is exact.  Bytes of a blob are naturals
below 256. -/
inductive Value where
  | Null : Value
  | Integer (i : Int) : Value
  | Real (x : Rat) : Value
  | Text (s : String) : Value
  | Blob (b : List Nat) : Value
deriving DecidableEq, Repr

/-- `Value::size`: 0 for null, 8 for integer/real, byte length for
text/blob (Rust `String::len` is the UTF-8 byte length). -/
def Value.size : Value → Nat
  | .Null => 0
  | .Integer _ => 8
  | .Real _ => 8
  | .Text s => s.utf8ByteSize
  | .Blob b => b.length

/-- `Changeset` (src/database/changes/changeset.rs): one row of the
CR-SQLite change log.  `i64` columns are modelled by `Int` (no arithmetic
is performed on them), `site_id` by a byte list. -/
structure Changeset where
  table : String
  pk : Value
  cid : Option String
  val : Value
  col_version : Int
  db_version : Int
  site_id : List Nat
deriving DecidableEq, Repr

/-- `Changeset::size`. -/
def Changeset.size (cs : Changeset) : Nat :=
  cs.table.utf8ByteSize
    + cs.pk.size
    + ((cs.cid.map String.utf8ByteSize).getD 0)
    + cs.val.size
    + 16
    + cs.site_id.length

/-! ## Errors (`src/error.rs`) -/

/-- `CRRError` (src/error.rs): the tagged error enum.  Payloads of wrapped
foreign errors are modelled by their display strings. -/
inductive CRRError where
  | DatabaseError (e : String) : CRRError
  | ParserError (e : String) : CRRError
  | InvalidURLError (e : String) : CRRError
  | SmtpError (e : String) : CRRError
  | MailingError (e : String) : CRRError
  | InvalidAddress (e : String) : CRRError
  | EnvVarError (e : String) : CRRError
  | BroadcastRecvError (e : String) : CRRError
  | IOError (e : String) : CRRError
  | Unauthorized (msg : String) : CRRError
  | UnsupportedOS (os : String) : CRRError
  | PoisonedLockError (site : String) : CRRError
  | SignalSendError (e : String) : CRRError
  | JsonError (e : String) : CRRError
  | ReservedName (name : String) : CRRError
  | PathRejection (e : String) : CRRError
  | Base64DecodeError (e : String) : CRRError
deriving DecidableEq, Repr

/-- `HttpError` (src/error.rs): HTTP status plus message.  `StatusCode` is
modelled by its numeric value. -/
structure HttpError where
  status_code : Nat
  message : String
deriving DecidableEq, Repr

/-- `impl From<CRRError> for HttpError` (src/error.rs lines 64-79):
`Unauthorized` keeps its message under status 401
(`StatusCode::UNAUTHORIZED`); every other variant becomes status 500
(`StatusCode::INTERNAL_SERVER_ERROR`) with the redacted message. -/
def HttpError.from_crr : CRRError → HttpError
  | .Unauthorized message => { status_code := 401, message }
  | _ => { status_code := 500, message := "Internal Server Error" }

/-! ## Change application (`src/database/changes/post.rs`)

`Database::apply_changes` prepares one `INSERT INTO crsql_changes …`
statement and, row by row, authorizes the row against the permission
predicate of its classification and executes the insert.  The connection is
in autocommit mode — the function opens no transaction — so each executed
insert is immediately durable.  The database state visible to this function
is the list of rows inserted into `crsql_changes`; an executed insert
appends the changeset's fields (the named parameters map them one to one).
The scoped `disable_authorization` guard only uninstalls the SQLite
authorizer callback for the statement's execution (spec §4.C); the explicit
`permissions()` checks below read the same `Permissions` value, so the
guard is dropped from the state model. -/

/-- `Database::apply_changes` (src/database/changes/post.rs lines 22-68),
threading the `crsql_changes` state explicitly: returns the state after the
call together with its `Result`. -/
def Database.apply_changes (perms : DatabasePermissions) (st : List Changeset) :
    List Changeset → List Changeset × Except CRRError Unit
  | [] => (st, .ok ())
  | changeset :: rest =>
    if changeset.cid = some "__crsql_del" then
      if !perms.delete_table changeset.table then
        (st, .error (.Unauthorized
          s!"User is not authorized to delete from table \"{changeset.table}\""))
      else
        Database.apply_changes perms (st ++ [changeset]) rest
    else if changeset.col_version = 1 then
      if !perms.insert_table changeset.table then
        (st, .error (.Unauthorized
          s!"User is not authorized to insert into table \"{changeset.table}\""))
      else
        Database.apply_changes perms (st ++ [changeset]) rest
    else
      if !perms.update_table changeset.table then
        (st, .error (.Unauthorized
          s!"User is not authorized to update table \"{changeset.table}\""))
      else
        Database.apply_changes perms (st ++ [changeset]) rest

/-- The predicate a row must pass in `apply_changes`, by its
classification: `cid == "__crsql_del"` → delete; else `col_version == 1` →
insert; else → update. -/
def Changeset.check (perms : DatabasePermissions) (cs : Changeset) : Bool :=
  if cs.cid = some "__crsql_del" then perms.delete_table cs.table
  else if cs.col_version = 1 then perms.insert_table cs.table
  else perms.update_table cs.table

/-- The `Unauthorized` message `apply_changes` produces for a failing row. -/
def Changeset.denyMessage (cs : Changeset) : String :=
  if cs.cid = some "__crsql_del" then
    s!"User is not authorized to delete from table \"{cs.table}\""
  else if cs.col_version = 1 then
    s!"User is not authorized to insert into table \"{cs.table}\""
  else
    s!"User is not authorized to update table \"{cs.table}\""

/-! ## Paged change readers (`src/database/changes/stream.rs` lines
98-176 and `src/database/changes/change_manager.rs` lines 144-188)

Both readers run a query over `crsql_changes` and accumulate the resulting
rows into one page.  The embedding takes the queried row sequence as input
(the SQL query itself is not modelled) and reproduces each loop exactly:
the loop body of the closure in `Database::changes` breaks *before* adding
the row, and only when the cumulative size exceeds `CHANGE_BUFFER_SIZE`
*and* the row's `db_version` is above the last accumulated one; the loop
body of `Database::all_changes` adds the row first and breaks as soon as
the cumulative size exceeds `CHANGE_BUFFER_SIZE`. -/

/-- `CHANGE_BUFFER_SIZE` (src/database/changes/mod.rs). -/
def CHANGE_BUFFER_SIZE : Nat := 1000000

/-- Loop body of the closure in `Database::changes`
(src/database/changes/stream.rs lines 156-169): `db_version` and
`buffer_size` are the loop-carried locals; returns the buffer, the
`has_next_page` flag and the final `db_version` written back by
`set_db_version`. -/
def changesLoop (db_version : Int) (buffer_size : Nat) :
    List Changeset → List Changeset × Bool × Int
  | [] => ([], false, db_version)
  | changeset :: rest =>
    if buffer_size > CHANGE_BUFFER_SIZE ∧ changeset.db_version > db_version then
      ([], true, db_version)
    else
      let r := changesLoop changeset.db_version (buffer_size + changeset.size) rest
      (changeset :: r.1, r.2)

/-- One page of `Database::changes` (src/database/changes/stream.rs):
starting cursor `db_version0`, queried rows `rows`. -/
def Database.changes_page (db_version0 : Int) (rows : List Changeset) :
    List Changeset × Bool × Int :=
  changesLoop db_version0 0 rows

/-- Loop body of the closure in `Database::all_changes`
(src/database/changes/change_manager.rs lines 169-179): the row is pushed
first, then the budget is checked. -/
def allChangesLoop (buffer_size : Nat) : List Changeset → List Changeset × Bool
  | [] => ([], false)
  | changeset :: rest =>
    let buffer_size' := buffer_size + changeset.size
    if buffer_size' > CHANGE_BUFFER_SIZE then ([changeset], true)
    else
      let r := allChangesLoop buffer_size' rest
      (changeset :: r.1, r.2)

/-- One page of `Database::all_changes`
(src/database/changes/change_manager.rs lines 144-188): afterwards the
cursor is set to the last buffered row's `db_version` (unchanged on an
empty buffer). -/
def Database.all_changes_page (db_version0 : Int) (rows : List Changeset) :
    List Changeset × Bool × Int :=
  let r := allChangesLoop 0 rows
  (r.1, r.2, ((r.1.getLast?).map Changeset.db_version).getD db_version0)

/-- Cumulative `Changeset::size` of a buffer. -/
def sizeSum (l : List Changeset) : Nat := (l.map Changeset.size).sum

/-- The cursor after consuming a page: the last buffered row's
`db_version`, or the incoming cursor on an empty buffer. -/
def lastVersion (db_version : Int) (page : List Changeset) : Int :=
  ((page.getLast?).map Changeset.db_version).getD db_version

/-! ## Live phase of the change stream (`src/database/changes/stream.rs`
lines 62-92) -/

/-- `Migration` (src/database/changes/message.rs): one migration-log row. -/
structure Migration where
  version : Int
  sql : String
deriving DecidableEq, Repr

/-- `Message` (src/database/changes/message.rs): what the publisher
broadcasts. -/
inductive Message where
  | Change (cs : Changeset) : Message
  | Migration (m : Migration) : Message
  | Error (e : CRRError) : Message
deriving DecidableEq, Repr

/-- A server-sent event of the stream endpoint. -/
inductive LiveEvent where
  | change (cs : Changeset) : LiveEvent
  | migration (m : Migration) : LiveEvent
  | error (e : CRRError) : LiveEvent
deriving DecidableEq, Repr

/-- The live loop of `stream_changes` (src/database/changes/stream.rs lines
62-92): `db_version` is the cutoff, `schema_version` the migration
baseline; a `Change` is dropped unless the caller may read its table, its
`db_version` reaches the cutoff and its `site_id` differs from the
caller's; on emission the cutoff becomes the emitted `db_version`.  An
`Error` message ends the stream after an error frame. -/
def stream_live (perms : DatabasePermissions) (site_id : List Nat)
    (db_version : Int) (schema_version : Int) :
    List Message → List LiveEvent
  | [] => []
  | .Change changeset :: rest =>
    if !perms.read_table changeset.table then
      stream_live perms site_id db_version schema_version rest
    else if changeset.db_version < db_version then
      stream_live perms site_id db_version schema_version rest
    else if changeset.site_id = site_id then
      stream_live perms site_id db_version schema_version rest
    else
      .change changeset ::
        stream_live perms site_id changeset.db_version schema_version rest
  | .Migration migration :: rest =>
    if migration.version > schema_version then
      .migration migration ::
        stream_live perms site_id db_version migration.version rest
    else
      stream_live perms site_id db_version schema_version rest
  | .Error e :: _ => [.error e]

/-- The change events of an emitted stream. -/
def emittedChanges (l : List LiveEvent) : List Changeset :=
  l.filterMap fun e =>
    match e with
    | .change cs => some cs
    | _ => none

/-! ## Migration engine (`src/database/migrate.rs`)

`MigrationType::detect` matches the statement against the regexes
`ALTER TABLE "(.+)"` (tried first) and `CREATE TABLE "(.+)"`.  The `regex`
crate finds the leftmost match; `.` does not match a newline and `.+` is
greedy, so at the leftmost position where the literal prefix
(`ALTER TABLE "` resp. `CREATE TABLE "`) occurs and a further `"` follows
at distance at least one on the same line, the capture runs to the *last*
`"` of that line.  `reFind` below is that semantics on character lists. -/

/-- Index of the last `"` in a segment, if any. -/
def lastQuoteIdx (seg : List Char) : Option Nat :=
  match (seg.reverse).findIdx? (· == '"') with
  | some k => some (seg.length - 1 - k)
  | none => none

/-- The greedy capture of `(.+)"` at a fixed start position: the text up to
the last `"` of the current line, provided it is nonempty. -/
def captureAfter (rest : List Char) : Option (List Char) :=
  let seg := rest.takeWhile (· ≠ '\n')
  match lastQuoteIdx seg with
  | some j => if 1 ≤ j then some (seg.take j) else none
  | none => none

/-- Leftmost match of `<pat>(.+)"` (with `pat` a literal ending in `"`):
try every start position left to right and return the first successful
greedy capture. -/
def reFind (pat : List Char) : List Char → Option (List Char)
  | [] => none
  | c :: t =>
    match (if pat.isPrefixOf (c :: t) then captureAfter ((c :: t).drop pat.length) else none) with
    | some cap => some cap
    | none => reFind pat t

/-- Literal prefix of the regex `CREATE TABLE "(.+)"`. -/
def patCREATE : List Char := "CREATE TABLE \"".data

/-- Literal prefix of the regex `ALTER TABLE "(.+)"`. -/
def patALTER : List Char := "ALTER TABLE \"".data

/-- `MigrationType` (src/database/migrate.rs lines 100-105). -/
inductive MigrationType where
  | Create (name : String) : MigrationType
  | Alter (name : String) : MigrationType
  | Other : MigrationType
deriving DecidableEq, Repr

/-- `MigrationType::detect` (src/database/migrate.rs lines 107-124): the
ALTER regex is tried before the CREATE regex. -/
def MigrationType.detect (sql : String) : MigrationType :=
  match reFind patALTER sql.data with
  | some altered => .Alter (String.mk altered)
  | none =>
    match reFind patCREATE sql.data with
    | some created => .Create (String.mk created)
    | none => .Other

/-- `Database::enable_migration_crr` (src/database/migrate.rs lines 67-82):
the statements pushed for one input statement. -/
def Database.enable_migration_crr (sql : String) : List String :=
  match MigrationType.detect sql with
  | .Alter table_name =>
    [s!"SELECT crsql_begin_alter('{table_name}')", sql,
     s!"SELECT crsql_commit_alter('{table_name}')"]
  | .Create table_name =>
    [sql, s!"SELECT crsql_as_crr('{table_name}')"]
  | .Other => [sql]

/-- The batch text built by `Database::apply_migration`
(src/database/migrate.rs lines 44-50): push the rewritten statements of
each input in order, then join with `";\n"`. -/
def Database.apply_migration_sql (queries : List String) : String :=
  String.intercalate ";\n"
    (queries.foldl (fun acc q => acc ++ Database.enable_migration_crr q) [])

/-- The claim's (and spec §4.C's) reading of the classifier: the CREATE
pattern is stated first, so a statement matching it gets the create
ceremony.  Stated for comparison with the source's `detect`, which tries
ALTER first. -/
def detect_of_claim (sql : String) : MigrationType :=
  match reFind patCREATE sql.data with
  | some created => .Create (String.mk created)
  | none =>
    match reFind patALTER sql.data with
    | some altered => .Alter (String.mk altered)
    | none => .Other

/-- The rewrite the claim describes, using `detect_of_claim`. -/
def rewrite_of_claim (sql : String) : List String :=
  match detect_of_claim sql with
  | .Alter table_name =>
    [s!"SELECT crsql_begin_alter('{table_name}')", sql,
     s!"SELECT crsql_commit_alter('{table_name}')"]
  | .Create table_name =>
    [sql, s!"SELECT crsql_as_crr('{table_name}')"]
  | .Other => [sql]

/-- `Database::migrations` (src/database/migrate.rs lines 84-97): the
migration log `crr_server_migrations(version INTEGER PRIMARY KEY, sql
TEXT)` is a rowid table keyed by `version`, so a scan under
`WHERE version > ?` yields its rows in ascending `version` (= rowid)
order; the table state is embedded as that ascending row list. -/
def Database.migrations (log : List (Int × String)) (schema_version : Int) :
    List Migration :=
  (log.filter fun row => row.1 > schema_version).map fun row =>
    { version := row.1, sql := row.2 }

/-! ## Permission resolution (`src/auth/database.rs`) -/

/-- `AuthDatabase::RESERVED_NAMES`. -/
def RESERVED_NAMES : List String := ["auth", "sync"]

/-- `AuthDatabase::get_permissions` (src/auth/database.rs lines 136-166).
The external stores are parameters: `admin_token` is the configured
environment token, `token_user` the `tokens` table lookup performed by
`authenticate_user` (`none` = no unexpired row, surfacing as a rusqlite
`QueryReturnedNoRows` database error), `user_perms` the permission rows
aggregated by `get_permissions_for_user`, and `cookie` the `CRR_TOKEN`
cookie value. -/
def AuthDatabase.get_permissions (admin_token : Option String)
    (token_user : String → Option Int)
    (user_perms : Int → DatabasePermissions)
    (cookie : Option String) (db_name : String) :
    Except CRRError DatabasePermissions :=
  if RESERVED_NAMES.contains db_name then
    .error (.ReservedName db_name)
  else
    match cookie with
    | none => .error (.Unauthorized "No Token found")
    | some token =>
      if some token = admin_token then .ok .Full
      else
        match token_user token with
        | none => .error (.DatabaseError "QueryReturnedNoRows")
        | some user_id =>
          let permissions := user_perms user_id
          if permissions.is_empty then
            .error (.Unauthorized s!"User has no access to database {db_name}")
          else
            .ok permissions

/-! ## Changeset JSON (`src/database/changes/changeset.rs`,
`src/database/value.rs`, `src/serde_base64.rs`)

`serde_json`'s data model, with numbers carried exactly (see the comment on
`Value.Real`).  `Changeset` and `Value` derive serde's default
(de)serializers: a struct becomes an object of its fields, an externally
tagged enum becomes the variant name for a unit variant and a one-entry
object for a newtype variant; `site_id` goes through `serde_base64`
(standard alphabet, padding, canonical trailing bits). -/

/-- The `serde_json::Value` data model. -/
inductive Json where
  | null : Json
  | bool (b : Bool) : Json
  | num (q : Rat) : Json
  | str (s : String) : Json
  | arr (items : List Json) : Json
  | obj (fields : List (String × Json)) : Json

/-- The standard base64 alphabet (RFC 4648). -/
def b64alphabet : List Char :=
  "ABCDEFGHIJKLMNOPQRSTUVWXYZabcdefghijklmnopqrstuvwxyz0123456789+/".data

/-- Character of a six-bit group. -/
def b64char (i : Nat) : Char := b64alphabet.getD i 'A'

/-- Six-bit group of a character, if it is in the alphabet. -/
def b64index (c : Char) : Option Nat := b64alphabet.findIdx? (· == c)

/-- `base64::engine::general_purpose::STANDARD` encoding: three bytes per
four characters, the tail padded with `=`. -/
def b64encode : List Nat → List Char
  | [] => []
  | [a] => [b64char (a / 4), b64char (a % 4 * 16), '=', '=']
  | [a, b] => [b64char (a / 4), b64char (a % 4 * 16 + b / 16),
               b64char (b % 16 * 4), '=']
  | a :: b :: c :: rest =>
    b64char (a / 4) :: b64char (a % 4 * 16 + b / 16)
      :: b64char (b % 16 * 4 + c / 64) :: b64char (c % 64) :: b64encode rest

/-- `STANDARD` decoding: requires canonical padding at the very end and
zero trailing bits (`decode_allow_trailing_bits` is off). -/
def b64decode : List Char → Option (List Nat)
  | [] => some []
  | c1 :: c2 :: c3 :: c4 :: rest =>
    if c3 = '=' ∧ c4 = '=' then
      if rest = [] then
        match b64index c1, b64index c2 with
        | some s1, some s2 =>
          if s2 % 16 = 0 then some [s1 * 4 + s2 / 16] else none
        | _, _ => none
      else none
    else if c4 = '=' then
      if rest = [] then
        match b64index c1, b64index c2, b64index c3 with
        | some s1, some s2, some s3 =>
          if s3 % 4 = 0 then some [s1 * 4 + s2 / 16, s2 % 16 * 16 + s3 / 4]
          else none
        | _, _, _ => none
      else none
    else
      match b64index c1, b64index c2, b64index c3, b64index c4 with
      | some s1, some s2, some s3, some s4 =>
        (b64decode rest).map fun tail =>
          (s1 * 4 + s2 / 16) :: (s2 % 16 * 16 + s3 / 4) :: (s3 % 4 * 64 + s4) :: tail
      | _, _, _, _ => none
  | _ => none

/-- `serde_base64::serialize` (src/serde_base64.rs): a byte vector becomes
the base64 string. -/
def serde_base64.serialize (v : List Nat) : Json :=
  .str (String.mk (b64encode v))

/-- `serde_base64::deserialize` (src/serde_base64.rs): expect a string and
decode it. -/
def serde_base64.deserialize : Json → Option (List Nat)
  | .str s => b64decode s.data
  | _ => none

/-- Serialization of `Value` (derived serde, externally tagged). -/
def Value.toJson : Value → Json
  | .Null => .str "Null"
  | .Integer i => .obj [("Integer", .num (Int.cast i))]
  | .Real x => .obj [("Real", .num x)]
  | .Text s => .obj [("Text", .str s)]
  | .Blob b => .obj [("Blob", .arr (b.map fun byte => .num (Nat.cast byte)))]

/-- Deserialization of one `u8` (a JSON number in `0..=255` with no
fractional part). -/
def byteFromJson : Json → Option Nat
  | .num q => if q.den = 1 ∧ 0 ≤ q.num ∧ q.num < 256 then some q.num.toNat else none
  | _ => none

/-- Deserialization of a `Vec<u8>` from a JSON array, element by element. -/
def bytesFromJson : List Json → Option (List Nat)
  | [] => some []
  | j :: rest => do
    let byte ← byteFromJson j
    let tail ← bytesFromJson rest
    pure (byte :: tail)

/-- Deserialization of an `i64` field (a JSON number with no fractional
part; the embedding's `Int` is unbounded, matching every value the
serializer emits). -/
def intFromJson : Json → Option Int
  | .num q => if q.den = 1 then some q.num else none
  | _ => none

/-- Deserialization of `Value` (derived serde, externally tagged). -/
def Value.fromJson : Json → Option Value
  | .str s => if s = "Null" then some .Null else none
  | .obj [(tag, payload)] =>
    if tag = "Integer" then (intFromJson payload).map .Integer
    else if tag = "Real" then
      match payload with
      | .num q => some (.Real q)
      | _ => none
    else if tag = "Text" then
      match payload with
      | .str s => some (.Text s)
      | _ => none
    else if tag = "Blob" then
      match payload with
      | .arr items => (bytesFromJson items).map .Blob
      | _ => none
    else none
  | _ => none

/-- Deserialization of the `cid` field (`Option<String>`). -/
def cidFromJson : Json → Option (Option String)
  | .null => some none
  | .str s => some (some s)
  | _ => none

/-- Serialization of `Changeset` (derived serde: an object of its fields in
declaration order; `site_id` with `serde_base64`). -/
def Changeset.toJson (cs : Changeset) : Json :=
  .obj [("table", .str cs.table),
        ("pk", cs.pk.toJson),
        ("cid", (cs.cid.map Json.str).getD .null),
        ("val", cs.val.toJson),
        ("col_version", .num (Int.cast cs.col_version)),
        ("db_version", .num (Int.cast cs.db_version)),
        ("site_id", serde_base64.serialize cs.site_id)]

/-- Deserialization of `Changeset` (derived serde: fields found by name). -/
def Changeset.fromJson : Json → Option Changeset
  | .obj fields => do
    let table ← fields.lookup "table" >>= fun j =>
      match j with | .str s => some s | _ => none
    let pk ← fields.lookup "pk" >>= Value.fromJson
    let cid ← fields.lookup "cid" >>= cidFromJson
    let val ← fields.lookup "val" >>= Value.fromJson
    let col_version ← fields.lookup "col_version" >>= intFromJson
    let db_version ← fields.lookup "db_version" >>= intFromJson
    let site_id ← fields.lookup "site_id" >>= serde_base64.deserialize
    pure { table, pk, cid, val, col_version, db_version, site_id }
  | _ => none

/-- Well-formedness of a `Value` as produced by the Rust types: blob bytes
are `u8`. -/
def Value.wf : Value → Prop
  | .Blob b => ∀ byte ∈ b, byte < 256
  | _ => True

/-! ## Concrete inputs used by counterexamples and witnesses -/

/-- A partial permission granting nothing. -/
def exPermsEmpty : DatabasePermissions := .Partial ⟨false, false, false, false⟩ []

/-- A partial permission granting database-level insert only. -/
def exPermsInsert : DatabasePermissions := .Partial ⟨false, true, false, false⟩ []

/-- A row-deletion changeset (`cid == "__crsql_del"`). -/
def exDel : Changeset :=
  { table := "foo", pk := .Null, cid := some "__crsql_del", val := .Null,
    col_version := 2, db_version := 1, site_id := [] }

/-- A row-insert changeset (`col_version == 1`). -/
def exIns : Changeset :=
  { table := "foo", pk := .Null, cid := some "bar", val := .Null,
    col_version := 1, db_version := 1, site_id := [] }

/-- An update changeset (`col_version == 2`). -/
def exUpd : Changeset :=
  { table := "foo", pk := .Null, cid := some "bar", val := .Null,
    col_version := 2, db_version := 2, site_id := [] }

/-- A changeset bigger than the page budget on its own (blob of a million
bytes), at `db_version` 5. -/
def exBig : Changeset :=
  { table := "t", pk := .Null, cid := some "c", val := .Blob (List.replicate 1000000 0),
    col_version := 2, db_version := 5, site_id := [] }

/-- A small changeset of the same commit (`db_version` 5) as `exBig`. -/
def exSmall : Changeset :=
  { table := "t", pk := .Null, cid := some "d", val := .Null,
    col_version := 2, db_version := 5, site_id := [] }

/-- A changeset exercising text and blob payloads and a 16-byte site id. -/
def exChangeset : Changeset :=
  { table := "foo", pk := .Text "'a'", cid := some "bar", val := .Blob [0, 255],
    col_version := 1, db_version := 7,
    site_id := [113, 203, 3, 166, 76, 47, 79, 47, 178, 78, 194, 120, 89, 221, 198, 42] }

/-! ## Theorems -/

/-- Characterization of `apply_changes`: the final state appends exactly
the longest authorized prefix, and the result is `ok` or the first failing
row's `Unauthorized` error. -/
theorem apply_changes_eq (perms : DatabasePermissions) (st : List Changeset)
    (css : List Changeset) :
    Database.apply_changes perms st css
      = (st ++ css.takeWhile (Changeset.check perms),
         match css.find? (fun cs => !Changeset.check perms cs) with
         | none => Except.ok ()
         | some cs => Except.error (.Unauthorized cs.denyMessage)) := by
  induction css generalizing st with
  | nil => simp [Database.apply_changes]
  | cons cs rest ih =>
    by_cases h1 : cs.cid = some "__crsql_del"
    · by_cases h2 : perms.delete_table cs.table
      · simp [Database.apply_changes, Changeset.check, h1, h2, ih,
          List.takeWhile_cons, List.find?_cons]
      · simp [Database.apply_changes, Changeset.check, Changeset.denyMessage,
          h1, h2, List.takeWhile_cons, List.find?_cons]
    · by_cases h2 : cs.col_version = 1
      · by_cases h3 : perms.insert_table cs.table
        · simp [Database.apply_changes, Changeset.check, h1, h2, h3, ih,
            List.takeWhile_cons, List.find?_cons]
        · simp [Database.apply_changes, Changeset.check, Changeset.denyMessage,
            h1, h2, h3, List.takeWhile_cons, List.find?_cons]
      · by_cases h3 : perms.update_table cs.table
        · simp [Database.apply_changes, Changeset.check, h1, h2, h3, ih,
            List.takeWhile_cons, List.find?_cons]
        · simp [Database.apply_changes, Changeset.check, Changeset.denyMessage,
            h1, h2, h3, List.takeWhile_cons, List.find?_cons]

/-- C1: `apply_changes` succeeds iff every row passes the predicate of its
classification (`cid == "__crsql_del"` → `delete_table`; else
`col_version == 1` → `insert_table`; else `update_table`); the first row
failing its predicate makes it return the `Unauthorized` error naming that
row's table; and the predicate a row must pass is exactly the one of its
classification, never another. -/
theorem apply_changes_classified_authorization (perms : DatabasePermissions)
    (st : List Changeset) (css : List Changeset) :
    ((Database.apply_changes perms st css).2 = .ok ()
        ↔ ∀ cs ∈ css, Changeset.check perms cs = true)
    ∧ (∀ cs, css.find? (fun c => !Changeset.check perms c) = some cs →
        (Database.apply_changes perms st css).2
          = .error (.Unauthorized cs.denyMessage))
    ∧ (∀ cs : Changeset,
        (cs.cid = some "__crsql_del" →
          Changeset.check perms cs = perms.delete_table cs.table)
        ∧ (cs.cid ≠ some "__crsql_del" → cs.col_version = 1 →
          Changeset.check perms cs = perms.insert_table cs.table)
        ∧ (cs.cid ≠ some "__crsql_del" → cs.col_version ≠ 1 →
          Changeset.check perms cs = perms.update_table cs.table)) := by
  refine ⟨?_, fun cs hfind => ?_, fun cs => ⟨fun h1 => ?_, fun h1 h2 => ?_, fun h1 h2 => ?_⟩⟩
  · rw [apply_changes_eq]
    rcases hfind : css.find? (fun c => !Changeset.check perms c) with _ | cs
    · simp only [hfind]
      rw [List.find?_eq_none] at hfind
      simpa using hfind
    · simp only [hfind]
      have hmem := List.find?_some hfind
      have hin := List.mem_of_find?_eq_some hfind
      simp only [Bool.not_eq_true'] at hmem
      constructor
      · intro h
        exact absurd h (by simp)
      · intro hall
        exact absurd (hall cs hin) (by simp [hmem])
  · rw [apply_changes_eq]
    simp only [hfind]
  · simp [Changeset.check, h1]
  · simp [Changeset.check, h1, h2]
  · simp [Changeset.check, h1, h2]

/-- C1 witness: with empty permissions, a single deletion row is refused
with the `Unauthorized` message naming its table. -/
theorem apply_changes_classified_authorization_witness :
    (Database.apply_changes exPermsEmpty [] [exDel]).2
      = .error (.Unauthorized "User is not authorized to delete from table \"foo\"") :=
  (apply_changes_classified_authorization exPermsEmpty [] [exDel]).2.1 exDel rfl

/-- C3 counterexample: with insert-only permissions, applying an insert row
followed by an update row fails `Unauthorized` on the update row, yet the
state after the call contains the insert row — the batch is not rolled
back. -/
theorem apply_changes_not_atomic_counterexample :
    (Database.apply_changes exPermsInsert [] [exIns, exUpd]).2
      = .error (.Unauthorized "User is not authorized to update table \"foo\"")
    ∧ (Database.apply_changes exPermsInsert [] [exIns, exUpd]).1 = [exIns]
    ∧ [exIns] ≠ ([] : List Changeset) := by
  refine ⟨rfl, rfl, by simp⟩

/-- C3 amended: `apply_changes` opens no transaction; each authorized row's
insert is immediately durable, so the state after the call always appends
exactly the longest prefix of rows passing their classification predicate —
also when a later row fails and an error is returned.  On success all rows
are appended. -/
theorem apply_changes_state (perms : DatabasePermissions) (st : List Changeset)
    (css : List Changeset) :
    (Database.apply_changes perms st css).1
      = st ++ css.takeWhile (Changeset.check perms)
    ∧ ((Database.apply_changes perms st css).2 = .ok ()
        → (Database.apply_changes perms st css).1 = st ++ css) := by
  constructor
  · rw [apply_changes_eq]
  · intro hok
    rw [apply_changes_eq]
    have hall : ∀ cs ∈ css, Changeset.check perms cs = true := by
      rw [apply_changes_eq] at hok
      rcases hfind : css.find? (fun c => !Changeset.check perms c) with _ | cs
      · rw [List.find?_eq_none] at hfind
        simpa using hfind
      · simp only [hfind] at hok
        exact absurd hok (by simp)
    simp [List.takeWhile_eq_self_iff.mpr ?_]
    exact hall

/-- C3 amended witness: a fully authorized batch appends all rows. -/
theorem apply_changes_state_witness :
    (Database.apply_changes exPermsInsert [] [exIns]).1 = [exIns] :=
  ((apply_changes_state exPermsInsert [] [exIns]).2 rfl).trans (by simp)

/-- C5 counterexample: a partial permission without database-level read
whose only table entry grants insert but not read.  The source's
`readable_tables` still returns that table's name, although the claim says
a table whose entry grants only insert is not in the returned set (the
spec-faithful `readable_tables_of_spec` returns the empty set here). -/
theorem readable_tables_counterexample :
    DatabasePermissions.readable_tables
        (.Partial ⟨false, false, false, false⟩
          [("foo", .Partial ⟨false, true, false, false⟩)])
      = AllowedTables.Some ["foo"]
    ∧ readable_tables_of_spec
        (.Partial ⟨false, false, false, false⟩
          [("foo", .Partial ⟨false, true, false, false⟩)])
      = AllowedTables.Some [] := by
  constructor <;> rfl

/-- C5 amended: `readable_tables` returns `All` for `Full` permissions;
on a partial permission it returns `All` exactly when the database-level
read capability holds, and otherwise the key set of the table map — every
table with any table-level entry, whatever capabilities that entry grants:
a name is in the returned list iff the map has an entry for it. -/
theorem readable_tables_characterization
    (database : PartialPermissions) (tables : List (String × ObjectPermissions))
    (name : String) :
    DatabasePermissions.readable_tables .Full = .All
    ∧ (database.read = true →
        DatabasePermissions.readable_tables (.Partial database tables) = .All)
    ∧ (database.read = false →
        DatabasePermissions.readable_tables (.Partial database tables)
            = .Some (tables.map Prod.fst)
          ∧ (name ∈ tables.map Prod.fst ↔ ∃ p, (name, p) ∈ tables)) := by
  refine ⟨rfl, fun h => ?_, fun h => ⟨?_, ?_⟩⟩
  · simp [DatabasePermissions.readable_tables, h]
  · simp [DatabasePermissions.readable_tables, h]
  · rw [List.mem_map]
    constructor
    · rintro ⟨⟨a, b⟩, hmem, rfl⟩
      exact ⟨b, hmem⟩
    · rintro ⟨p, hp⟩
      exact ⟨(name, p), hp, rfl⟩

/-- C5 witness: instantiating the characterization at a concrete partial
permission without database-level read. -/
theorem readable_tables_characterization_witness :
    (⟨false, true, false, false⟩ : PartialPermissions).read = false
    ∧ DatabasePermissions.readable_tables
        (.Partial ⟨false, true, false, false⟩ [("foo", .Full)])
      = .Some ["foo"] :=
  ⟨rfl,
    ((readable_tables_characterization ⟨false, true, false, false⟩
      [("foo", .Full)] "foo").2.2 rfl).1⟩

/-- C8 counterexample: `ReservedName` and a parse error both map to status
500 with the redacted message, not to status 400 as the claim states. -/
theorem from_crr_counterexample :
    HttpError.from_crr (CRRError.ReservedName "auth")
      = { status_code := 500, message := "Internal Server Error" }
    ∧ HttpError.from_crr (CRRError.ParserError "invalid utf-8")
      = { status_code := 500, message := "Internal Server Error" } := by
  constructor <;> rfl

/-- C8 amended: the error-to-HTTP translation produces status 401 (with
the error's own message) exactly for `Unauthorized`; every other error
kind — `ReservedName` and parse/validation errors included — becomes
status 500 with the redacted message "Internal Server Error". -/
theorem from_crr_characterization (e : CRRError) :
    ((HttpError.from_crr e).status_code = 401 ↔ ∃ m, e = .Unauthorized m)
    ∧ (∀ m, e = .Unauthorized m → HttpError.from_crr e = { status_code := 401, message := m })
    ∧ ((∀ m, e ≠ .Unauthorized m) →
        HttpError.from_crr e = { status_code := 500, message := "Internal Server Error" }) := by
  refine ⟨⟨fun h => ?_, fun ⟨m, hm⟩ => by subst hm; rfl⟩, fun m hm => by subst hm; rfl, fun h => ?_⟩
  · cases e <;> simp_all [HttpError.from_crr]
  · cases e <;> first
      | rfl
      | exact absurd rfl (h _)

/-- C8 witness: the characterization applied to `ReservedName`. -/
theorem from_crr_characterization_witness :
    HttpError.from_crr (CRRError.ReservedName "sync")
      = { status_code := 500, message := "Internal Server Error" } :=
  (from_crr_characterization (CRRError.ReservedName "sync")).2.2
    (fun _ h => CRRError.noConfusion h)

/-- C10: for a reserved database name, `get_permissions` returns the
`ReservedName` error whatever the credentials are — the reserved-name check
precedes both the admin-token comparison and the token lookup. -/
theorem get_permissions_reserved (db_name : String)
    (h : RESERVED_NAMES.contains db_name = true)
    (admin_token : Option String) (token_user : String → Option Int)
    (user_perms : Int → DatabasePermissions) (cookie : Option String) :
    AuthDatabase.get_permissions admin_token token_user user_perms cookie db_name
      = .error (.ReservedName db_name) := by
  unfold AuthDatabase.get_permissions
  rw [if_pos h]

/-- C10 witness: even a caller presenting the configured admin token is
refused on the reserved database "auth". -/
theorem get_permissions_reserved_witness :
    RESERVED_NAMES.contains "auth" = true
    ∧ AuthDatabase.get_permissions (some "s3cret") (fun _ => none)
        (fun _ => .Full) (some "s3cret") "auth"
      = .error (.ReservedName "auth") :=
  ⟨by decide,
    get_permissions_reserved "auth" (by decide) (some "s3cret") (fun _ => none)
      (fun _ => .Full) (some "s3cret")⟩

/-- `emittedChanges` on an empty stream. -/
theorem emittedChanges_nil : emittedChanges [] = [] := rfl

/-- `emittedChanges` keeps a change event. -/
theorem emittedChanges_change (cs : Changeset) (l : List LiveEvent) :
    emittedChanges (.change cs :: l) = cs :: emittedChanges l := rfl

/-- `emittedChanges` drops a migration event. -/
theorem emittedChanges_migration (m : Migration) (l : List LiveEvent) :
    emittedChanges (.migration m :: l) = emittedChanges l := rfl

/-- `emittedChanges` drops an error event. -/
theorem emittedChanges_error (e : CRRError) (l : List LiveEvent) :
    emittedChanges (.error e :: l) = emittedChanges l := rfl

/-- Unfolding equation of `stream_live` on a `Change` message, with the
read test as a propositional `if`. -/
theorem stream_live_change_eq (perms : DatabasePermissions) (site : List Nat)
    (dbv sv : Int) (c : Changeset) (rest : List Message) :
    stream_live perms site dbv sv (.Change c :: rest)
      = if perms.read_table c.table = false then stream_live perms site dbv sv rest
        else if c.db_version < dbv then stream_live perms site dbv sv rest
        else if c.site_id = site then stream_live perms site dbv sv rest
        else .change c :: stream_live perms site c.db_version sv rest := by
  by_cases h : perms.read_table c.table <;> simp [stream_live, h]

/-- Unfolding equation of `stream_live` on a `Migration` message. -/
theorem stream_live_migration_eq (perms : DatabasePermissions) (site : List Nat)
    (dbv sv : Int) (m : Migration) (rest : List Message) :
    stream_live perms site dbv sv (.Migration m :: rest)
      = if m.version > sv then
          .migration m :: stream_live perms site dbv m.version rest
        else stream_live perms site dbv sv rest := rfl

/-- Every change the live loop emits was readable, at or above the cutoff
in force when the loop started, and from a foreign site. -/
theorem stream_live_emitted (perms : DatabasePermissions) (site : List Nat)
    (msgs : List Message) :
    ∀ dbv sv : Int,
      ∀ cs ∈ emittedChanges (stream_live perms site dbv sv msgs),
        perms.read_table cs.table = true ∧ dbv ≤ cs.db_version ∧ cs.site_id ≠ site := by
  induction msgs with
  | nil => intro dbv sv cs h; simp [stream_live, emittedChanges_nil] at h
  | cons msg rest ih =>
    intro dbv sv cs h
    match msg with
    | .Change c =>
      rw [stream_live_change_eq] at h
      by_cases hr : perms.read_table c.table = false
      · rw [if_pos hr] at h
        exact ih dbv sv cs h
      · rw [if_neg hr] at h
        by_cases hv : c.db_version < dbv
        · rw [if_pos hv] at h
          exact ih dbv sv cs h
        · rw [if_neg hv] at h
          by_cases hs : c.site_id = site
          · rw [if_pos hs] at h
            exact ih dbv sv cs h
          · rw [if_neg hs, emittedChanges_change] at h
            rcases List.mem_cons.1 h with heq | htail
            · subst heq
              exact ⟨by simpa using hr, le_of_not_lt hv, hs⟩
            · have h3 := ih c.db_version sv cs htail
              exact ⟨h3.1, le_trans (le_of_not_lt hv) h3.2.1, h3.2.2⟩
    | .Migration m =>
      rw [stream_live_migration_eq] at h
      by_cases hm : m.version > sv
      · rw [if_pos hm, emittedChanges_migration] at h
        exact ih dbv m.version cs h
      · rw [if_neg hm] at h
        exact ih dbv sv cs h
    | .Error e =>
      rw [stream_live] at h
      simp [emittedChanges] at h

/-- The `db_version` values the live loop emits are non-decreasing. -/
theorem stream_live_chain (perms : DatabasePermissions) (site : List Nat)
    (msgs : List Message) :
    ∀ dbv sv : Int,
      (emittedChanges (stream_live perms site dbv sv msgs)).Chain'
        (fun a b => a.db_version ≤ b.db_version) := by
  induction msgs with
  | nil => intro dbv sv; simp [stream_live, emittedChanges_nil]
  | cons msg rest ih =>
    intro dbv sv
    match msg with
    | .Change c =>
      rw [stream_live_change_eq]
      by_cases hr : perms.read_table c.table = false
      · rw [if_pos hr]; exact ih dbv sv
      · rw [if_neg hr]
        by_cases hv : c.db_version < dbv
        · rw [if_pos hv]; exact ih dbv sv
        · rw [if_neg hv]
          by_cases hs : c.site_id = site
          · rw [if_pos hs]; exact ih dbv sv
          · rw [if_neg hs, emittedChanges_change, List.chain'_cons']
            refine ⟨fun b hb => ?_, ih c.db_version sv⟩
            have hmem := List.mem_of_mem_head? hb
            exact (stream_live_emitted perms site rest c.db_version sv b hmem).2.1
    | .Migration m =>
      rw [stream_live_migration_eq]
      by_cases hm : m.version > sv
      · rw [if_pos hm, emittedChanges_migration]
        exact ih dbv m.version
      · rw [if_neg hm]; exact ih dbv sv
    | .Error e =>
      rw [stream_live]
      simp [emittedChanges]

/-- C4: in the live phase a `Change` message is emitted iff the caller may
read its table, its `db_version` is at least the current cutoff and its
`site_id` differs from the caller's, and on emission the cutoff advances to
that `db_version`; consequently no emitted change carries the subscriber's
own `site_id` and the emitted `db_version` sequence is non-decreasing (and
never below the initial cutoff). -/
theorem stream_live_filter (perms : DatabasePermissions) (site : List Nat)
    (dbv sv : Int) (msgs : List Message) (cs : Changeset) (rest : List Message) :
    (stream_live perms site dbv sv (.Change cs :: rest)
        = if perms.read_table cs.table = true ∧ dbv ≤ cs.db_version ∧ cs.site_id ≠ site
          then .change cs :: stream_live perms site cs.db_version sv rest
          else stream_live perms site dbv sv rest)
    ∧ (∀ c ∈ emittedChanges (stream_live perms site dbv sv msgs),
        c.site_id ≠ site ∧ perms.read_table c.table = true ∧ dbv ≤ c.db_version)
    ∧ (emittedChanges (stream_live perms site dbv sv msgs)).Chain'
        (fun a b => a.db_version ≤ b.db_version) := by
  refine ⟨?_, fun c hc => ?_, stream_live_chain perms site msgs dbv sv⟩
  · rw [stream_live_change_eq]
    by_cases hr : perms.read_table cs.table = false
    · rw [if_pos hr, if_neg]
      rintro ⟨h1, -, -⟩
      rw [h1] at hr
      simp at hr
    · rw [if_neg hr]
      by_cases hv : cs.db_version < dbv
      · rw [if_pos hv, if_neg]
        rintro ⟨-, h2, -⟩
        exact absurd hv (not_lt.2 h2)
      · rw [if_neg hv]
        by_cases hs : cs.site_id = site
        · rw [if_pos hs, if_neg]
          rintro ⟨-, -, h3⟩
          exact h3 hs
        · rw [if_neg hs, if_pos ⟨by simpa using hr, le_of_not_lt hv, hs⟩]
  · have h := stream_live_emitted perms site msgs dbv sv c hc
    exact ⟨h.2.2, h.1, h.2.1⟩

/-- C4 witness: a readable foreign-site change at the cutoff is emitted. -/
theorem stream_live_filter_witness :
    stream_live DatabasePermissions.Full [9] 0 0 [Message.Change exUpd]
      = [LiveEvent.change exUpd] := by
  rw [(stream_live_filter DatabasePermissions.Full [9] 0 0 [] exUpd []).1,
    if_pos (by decide)]
  rfl

/-- Unfolding equation of `Changeset::size`. -/
theorem changeset_size_eq (cs : Changeset) :
    cs.size = cs.table.utf8ByteSize + cs.pk.size
      + ((cs.cid.map String.utf8ByteSize).getD 0) + cs.val.size + 16
      + cs.site_id.length := rfl

/-- `Value::size` of a blob. -/
theorem value_size_blob (b : List Nat) : (Value.Blob b).size = b.length := rfl

/-- `sizeSum` of an empty buffer. -/
theorem sizeSum_nil : sizeSum [] = 0 := rfl

/-- `sizeSum` of a buffer head. -/
theorem sizeSum_cons (c : Changeset) (l : List Changeset) :
    sizeSum (c :: l) = c.size + sizeSum l := by
  simp [sizeSum]

/-- `lastVersion` of an empty buffer. -/
theorem lastVersion_nil (d : Int) : lastVersion d [] = d := rfl

/-- `lastVersion` ignores the incoming cursor once a row is buffered. -/
theorem lastVersion_cons (d : Int) (c : Changeset) (l : List Changeset) :
    lastVersion d (c :: l) = lastVersion c.db_version l := by
  cases l with
  | nil => rfl
  | cons a t =>
    rw [lastVersion, lastVersion, List.getLast?_cons_cons,
      List.getLast?_eq_getLast _ (by simp)]
    rfl

/-- A lower bound on every buffered row's version bounds `lastVersion`. -/
theorem le_lastVersion_of_forall (d : Int) (l : List Changeset)
    (h : ∀ x ∈ l, d ≤ x.db_version) : d ≤ lastVersion d l := by
  cases l with
  | nil => simp [lastVersion]
  | cons a t =>
    rw [lastVersion, List.getLast?_eq_getLast _ (by simp)]
    exact h _ (List.getLast_mem _)

/-- `Database::changes` page in terms of its loop. -/
theorem changes_page_eq (dbv : Int) (rows : List Changeset) :
    Database.changes_page dbv rows = changesLoop dbv 0 rows := rfl

/-- The buffer of an `all_changes` page. -/
theorem all_changes_page_fst (dbv : Int) (rows : List Changeset) :
    (Database.all_changes_page dbv rows).1 = (allChangesLoop 0 rows).1 := rfl

/-- The `has_next_page` flag of an `all_changes` page. -/
theorem all_changes_page_hn (dbv : Int) (rows : List Changeset) :
    (Database.all_changes_page dbv rows).2.1 = (allChangesLoop 0 rows).2 := rfl

/-- Characterization of the loop of `Database::changes`: the page is a
prefix of the queried rows, the returned cursor is the last buffered
version, a `has_next_page = true` break certifies both the exceeded byte
budget and a strictly larger next version, and without a break the page is
the whole row list. -/
theorem changesLoop_spec (rows : List Changeset) : ∀ (dbv : Int) (size : Nat),
    ((changesLoop dbv size rows).1
        ++ rows.drop (changesLoop dbv size rows).1.length = rows)
    ∧ ((changesLoop dbv size rows).2.2 = lastVersion dbv (changesLoop dbv size rows).1)
    ∧ ((changesLoop dbv size rows).2.1 = true →
        size + sizeSum (changesLoop dbv size rows).1 > CHANGE_BUFFER_SIZE
        ∧ ∃ next rest', rows.drop (changesLoop dbv size rows).1.length = next :: rest'
            ∧ lastVersion dbv (changesLoop dbv size rows).1 < next.db_version)
    ∧ ((changesLoop dbv size rows).2.1 = false → (changesLoop dbv size rows).1 = rows) := by
  induction rows with
  | nil =>
    intro dbv size
    refine ⟨rfl, rfl, fun h => by simp [changesLoop] at h, fun _ => rfl⟩
  | cons c rest ih =>
    intro dbv size
    by_cases hbr : size > CHANGE_BUFFER_SIZE ∧ c.db_version > dbv
    · rw [changesLoop, if_pos hbr]
      refine ⟨rfl, rfl, fun _ => ⟨by simpa [sizeSum_nil] using hbr.1, c, rest, rfl, ?_⟩,
        fun h => by simp at h⟩
      simpa [lastVersion_nil] using hbr.2
    · rw [changesLoop, if_neg hbr]
      obtain ⟨ih1, ih2, ih3, ih4⟩ := ih c.db_version (size + c.size)
      refine ⟨?_, ?_, fun h => ?_, fun h => ?_⟩
      · simpa [List.drop_succ_cons] using congrArg (c :: ·) ih1
      · simpa [lastVersion_cons] using ih2
      · obtain ⟨hsz, next, rest', hdrop, hlt⟩ := ih3 h
        exact ⟨by simpa [sizeSum_cons, Nat.add_assoc] using hsz, next, rest',
          by simpa [List.drop_succ_cons] using hdrop,
          by simpa [lastVersion_cons] using hlt⟩
      · simpa using ih4 h

/-- Under a sorted row list, the loop of `Database::changes` never leaves a
row of a buffered row's commit behind: every dropped row's `db_version` is
strictly above every buffered one's. -/
theorem changesLoop_no_split (rows : List Changeset) : ∀ (dbv : Int) (size : Nat),
    rows.Pairwise (fun a b => a.db_version ≤ b.db_version) →
    ∀ c ∈ (changesLoop dbv size rows).1,
      ∀ c' ∈ rows.drop (changesLoop dbv size rows).1.length,
        c.db_version < c'.db_version := by
  induction rows with
  | nil =>
    intro dbv size _ c hc
    simp [changesLoop] at hc
  | cons a rest ih =>
    intro dbv size hsorted c hc c' hc'
    rw [changesLoop] at hc hc'
    by_cases hbr : size > CHANGE_BUFFER_SIZE ∧ a.db_version > dbv
    · rw [if_pos hbr] at hc
      simp at hc
    · rw [if_neg hbr] at hc hc'
      simp only [List.length_cons, List.drop_succ_cons] at hc'
      have hrest : rest.Pairwise (fun a b => a.db_version ≤ b.db_version) :=
        (List.pairwise_cons.1 hsorted).2
      have hhead : ∀ x ∈ rest, a.db_version ≤ x.db_version :=
        (List.pairwise_cons.1 hsorted).1
      rcases List.mem_cons.1 hc with rfl | hc
      · -- c is the row just buffered; every dropped row is strictly newer
        obtain ⟨ih1, -, ih3, ih4⟩ := changesLoop_spec rest c.db_version (size + c.size)
        have hne : rest.drop (changesLoop c.db_version (size + c.size) rest).1.length ≠ [] := by
          intro hnil
          rw [hnil] at hc'
          simp at hc'
        have hn : (changesLoop c.db_version (size + c.size) rest).2.1 = true := by
          by_contra hfalse
          have h4 := ih4 (by simpa using hfalse)
          rw [h4, List.drop_length] at hne
          exact hne rfl
        obtain ⟨-, next, rest', hdrop, hlt⟩ := ih3 hn
        have hbase : c.db_version
            ≤ lastVersion c.db_version (changesLoop c.db_version (size + c.size) rest).1 := by
          refine le_lastVersion_of_forall _ _ fun x hx => hhead x ?_
          have hx' : x ∈ (changesLoop c.db_version (size + c.size) rest).1
              ++ rest.drop (changesLoop c.db_version (size + c.size) rest).1.length :=
            List.mem_append_left _ hx
          rw [ih1] at hx'
          exact hx'
        have hpw : (next :: rest').Pairwise (fun a b => a.db_version ≤ b.db_version) := by
          have hr := hrest
          rw [← ih1, hdrop] at hr
          exact (List.pairwise_append.1 hr).2.1
        rw [hdrop] at hc'
        rcases List.mem_cons.1 hc' with rfl | hc''
        · exact lt_of_le_of_lt hbase hlt
        · exact lt_of_le_of_lt hbase
            (lt_of_lt_of_le hlt ((List.pairwise_cons.1 hpw).1 c' hc''))
      · exact ih a.db_version (size + a.size) hrest c hc c' hc'

/-- Characterization of the loop of `Database::all_changes`: the page is a
prefix of the queried rows; the loop stops with `has_next_page = true` as
soon as the cumulative size exceeds the budget (the overflowing row
included), and only then; every proper prefix of the page respects the
budget. -/
theorem allChangesLoop_spec (rows : List Changeset) : ∀ size : Nat,
    size ≤ CHANGE_BUFFER_SIZE →
    ((allChangesLoop size rows).1
        ++ rows.drop (allChangesLoop size rows).1.length = rows)
    ∧ ((allChangesLoop size rows).2 = true →
        size + sizeSum (allChangesLoop size rows).1 > CHANGE_BUFFER_SIZE)
    ∧ ((allChangesLoop size rows).2 = false →
        (allChangesLoop size rows).1 = rows
        ∧ size + sizeSum (allChangesLoop size rows).1 ≤ CHANGE_BUFFER_SIZE)
    ∧ (∀ k < (allChangesLoop size rows).1.length,
        size + sizeSum ((allChangesLoop size rows).1.take k) ≤ CHANGE_BUFFER_SIZE) := by
  induction rows with
  | nil =>
    intro size hsize
    refine ⟨rfl, fun h => by simp [allChangesLoop] at h,
      fun _ => ⟨rfl, by simpa [sizeSum_nil] using hsize⟩,
      fun k hk => by simp [allChangesLoop] at hk⟩
  | cons c rest ih =>
    intro size hsize
    by_cases hbr : size + c.size > CHANGE_BUFFER_SIZE
    · rw [allChangesLoop]
      simp only []
      rw [if_pos hbr]
      refine ⟨by simp, fun _ => by simpa [sizeSum_cons, sizeSum_nil] using hbr,
        fun h => by simp at h, fun k hk => ?_⟩
      have hk0 : k = 0 := by
        simp only [List.length_cons, List.length_nil] at hk
        omega
      subst hk0
      simpa [sizeSum_nil] using hsize
    · have hsize' : size + c.size ≤ CHANGE_BUFFER_SIZE := le_of_not_lt hbr
      obtain ⟨ih1, ih2, ih3, ih4⟩ := ih (size + c.size) hsize'
      rw [allChangesLoop]
      simp only []
      rw [if_neg hbr]
      refine ⟨?_, fun h => ?_, fun h => ?_, fun k hk => ?_⟩
      · simpa [List.drop_succ_cons] using congrArg (c :: ·) ih1
      · simpa [sizeSum_cons, Nat.add_assoc] using ih2 h
      · obtain ⟨h1, h2⟩ := ih3 h
        exact ⟨by simpa using h1, by simpa [sizeSum_cons, Nat.add_assoc] using h2⟩
      · cases k with
        | zero => simpa [sizeSum_nil] using hsize
        | succ k' =>
          simp only [List.length_cons, Nat.succ_lt_succ_iff] at hk
          simpa [sizeSum_cons, Nat.add_assoc] using ih4 k' hk

/-- C2 counterexample: two rows of the same commit (`db_version = 5`), the
first alone exceeding the byte budget.  `all_changes` closes the page after
the first row with `has_next_page = true` although the next row's
`db_version` is *not* strictly greater — the commit is split across two
pages, refuting the claim for the full read. -/
theorem all_changes_split_counterexample :
    Database.all_changes_page 0 [exBig, exSmall] = ([exBig], true, 5)
    ∧ exSmall.db_version = exBig.db_version := by
  have hval : exBig.val = Value.Blob (List.replicate 1000000 0) := rfl
  have hsize : exBig.size = 1000018 := by
    rw [changeset_size_eq exBig, hval, value_size_blob, List.length_replicate,
      show exBig.table = "t" from rfl, show exBig.pk = Value.Null from rfl,
      show exBig.cid = some "c" from rfl, show exBig.site_id = [] from rfl]
    decide
  have e1 : allChangesLoop 0 [exBig, exSmall] = ([exBig], true) := by
    rw [allChangesLoop]
    simp only []
    rw [if_pos (by rw [hsize]; norm_num [CHANGE_BUFFER_SIZE])]
  refine ⟨?_, rfl⟩
  rw [Database.all_changes_page]
  simp only [e1]
  rfl

/-- C2 amended: the two readers page differently.  The selective read
`Database::changes` stops only on an exceeded byte budget together with a
strictly larger next `db_version`: its page is a prefix of the rows, a
`has_next_page = true` page exceeds `CHANGE_BUFFER_SIZE`, and (on rows
sorted by `db_version`, as `crsql_changes` yields them) every dropped row's
`db_version` is strictly above every buffered one's, so no commit is
split.  The full read `Database::all_changes` stops as soon as the
cumulative size exceeds the budget, the overflowing row ending the page
regardless of its `db_version`: its page is a prefix, `has_next_page` holds
iff the page's size exceeds the budget, and every proper prefix of the page
respects the budget — so a commit can be split (see the counterexample). -/
theorem change_paging_amended (db_version0 : Int) (rows rowsAll : List Changeset)
    (hsorted : rows.Pairwise (fun a b => a.db_version ≤ b.db_version)) :
    ((Database.changes_page db_version0 rows).1
        ++ rows.drop (Database.changes_page db_version0 rows).1.length = rows
      ∧ ((Database.changes_page db_version0 rows).2.1 = true →
          sizeSum (Database.changes_page db_version0 rows).1 > CHANGE_BUFFER_SIZE)
      ∧ (∀ c ∈ (Database.changes_page db_version0 rows).1,
          ∀ c' ∈ rows.drop (Database.changes_page db_version0 rows).1.length,
            c.db_version < c'.db_version))
    ∧ ((Database.all_changes_page db_version0 rowsAll).1
        ++ rowsAll.drop (Database.all_changes_page db_version0 rowsAll).1.length = rowsAll
      ∧ ((Database.all_changes_page db_version0 rowsAll).2.1 = true
          ↔ sizeSum (Database.all_changes_page db_version0 rowsAll).1 > CHANGE_BUFFER_SIZE)
      ∧ ∀ k < (Database.all_changes_page db_version0 rowsAll).1.length,
          sizeSum (rowsAll.take k) ≤ CHANGE_BUFFER_SIZE) := by
  obtain ⟨h1, -, h3, -⟩ := changesLoop_spec rows db_version0 0
  obtain ⟨g1, g2, g3, g4⟩ := allChangesLoop_spec rowsAll 0 (by norm_num [CHANGE_BUFFER_SIZE])
  simp only [changes_page_eq, all_changes_page_fst, all_changes_page_hn]
  refine ⟨⟨h1, fun h => by simpa using (h3 h).1,
      changesLoop_no_split rows db_version0 0 hsorted⟩,
    ⟨g1, ⟨fun h => by simpa using g2 h, fun h => ?_⟩, fun k hk => ?_⟩⟩
  · cases hb : (allChangesLoop 0 rowsAll).2 with
    | false => exact absurd (by simpa using (g3 hb).2) (not_le.2 h)
    | true => rfl
  · have htake : rowsAll.take k = (allChangesLoop 0 rowsAll).1.take k := by
      conv_lhs => rw [← g1]
      exact List.take_append_of_le_length (le_of_lt hk)
    rw [htake]
    simpa using g4 k hk

/-- C2 witness: a one-row sorted read returns the row as a full page. -/
theorem change_paging_amended_witness :
    (Database.changes_page 0 [exIns]).1
        ++ [exIns].drop (Database.changes_page 0 [exIns]).1.length = [exIns] :=
  (change_paging_amended 0 [exIns] [] (by simp)).1.1

/-- C7: `migrations(since_version)` returns exactly the migration-log rows
whose version is strictly greater than `since_version`, in ascending
version order (the log is a rowid table keyed by `version`, scanned in
ascending key order); in particular the result is empty iff no such row
exists. -/
theorem migrations_read (log : List (Int × String)) (since : Int)
    (hsorted : log.Pairwise (fun a b => a.1 < b.1)) :
    (∀ v s, ({ version := v, sql := s } : Migration) ∈ Database.migrations log since
        ↔ (v, s) ∈ log ∧ since < v)
    ∧ (Database.migrations log since = [] ↔ ∀ row ∈ log, row.1 ≤ since)
    ∧ (Database.migrations log since).Pairwise (fun a b => a.version < b.version) := by
  refine ⟨fun v s => ⟨fun hmem => ?_, fun ⟨hmem, hgt⟩ => ?_⟩, ?_, ?_⟩
  · simp only [Database.migrations, List.mem_map, List.mem_filter,
      decide_eq_true_eq] at hmem
    obtain ⟨⟨a, b⟩, ⟨hmem, hgt⟩, heq⟩ := hmem
    obtain ⟨rfl, rfl⟩ : a = v ∧ b = s := by
      simpa [Migration.mk.injEq] using heq
    exact ⟨hmem, hgt⟩
  · simp only [Database.migrations, List.mem_map, List.mem_filter, decide_eq_true_eq]
    exact ⟨(v, s), ⟨hmem, hgt⟩, rfl⟩
  · rw [Database.migrations, List.map_eq_nil_iff, List.filter_eq_nil_iff]
    constructor
    · intro h row hr
      exact not_lt.1 fun hgt => h row hr (by simpa using hgt)
    · intro h row hr
      simp only [decide_eq_true_eq]
      exact not_lt.2 (h row hr)
  · exact List.Pairwise.map _ (fun a b hab => hab) (List.Pairwise.filter _ hsorted)

/-- C7 witness: with two logged migrations, `migrations 1` contains exactly
the one with version 2. -/
theorem migrations_read_witness :
    ({ version := 2, sql := "b" } : Migration)
      ∈ Database.migrations [(1, "a"), (2, "b")] 1 :=
  ((migrations_read [(1, "a"), (2, "b")] 1 (by decide)).1 2 "b").mpr (by decide)

/-- C6 counterexample: a statement matching both regex patterns.  The
source tries the ALTER regex first and emits the alter ceremony; the claim,
which states the CREATE case first, would emit the create ceremony (shown
via the spec-faithful `rewrite_of_claim`).  The two rewrites differ. -/
theorem migration_rewrite_counterexample :
    Database.enable_migration_crr "CREATE TABLE \"a\" ALTER TABLE \"b\""
      = ["SELECT crsql_begin_alter('b')", "CREATE TABLE \"a\" ALTER TABLE \"b\"",
         "SELECT crsql_commit_alter('b')"]
    ∧ rewrite_of_claim "CREATE TABLE \"a\" ALTER TABLE \"b\""
      = ["CREATE TABLE \"a\" ALTER TABLE \"b\"",
         "SELECT crsql_as_crr('a\" ALTER TABLE \"b')"]
    ∧ Database.enable_migration_crr "CREATE TABLE \"a\" ALTER TABLE \"b\""
      ≠ rewrite_of_claim "CREATE TABLE \"a\" ALTER TABLE \"b\"" := by
  refine ⟨by decide, by decide, by decide⟩

/-- The push loop of `apply_migration` appends the per-statement rewrites
in input order. -/
theorem enable_migration_foldl (queries : List String) (acc : List String) :
    queries.foldl (fun acc q => acc ++ Database.enable_migration_crr q) acc
      = acc ++ queries.flatMap Database.enable_migration_crr := by
  induction queries generalizing acc with
  | nil => simp
  | cons q rest ih => simp [ih, List.append_assoc]

/-- C6 amended: the batch text is the per-statement rewrites of the inputs
in order, joined with ";\n"; per statement the ALTER pattern is tried
before the CREATE pattern, so the rewrite agrees with the claim's
CREATE-first reading whenever at most one pattern matches, a statement
matching the ALTER regex gets the alter ceremony (even if it also matches
the CREATE regex), a statement matching only the CREATE regex gets the
create ceremony, and a statement matching neither is kept unchanged. -/
theorem migration_rewrite_amended (queries : List String) (sql : String) :
    (Database.apply_migration_sql queries
        = String.intercalate ";\n" (queries.flatMap Database.enable_migration_crr))
    ∧ ((reFind patCREATE sql.data = none ∨ reFind patALTER sql.data = none) →
        Database.enable_migration_crr sql = rewrite_of_claim sql)
    ∧ (∀ cap, reFind patALTER sql.data = some cap →
        Database.enable_migration_crr sql
          = [s!"SELECT crsql_begin_alter('{String.mk cap}')", sql,
             s!"SELECT crsql_commit_alter('{String.mk cap}')"])
    ∧ (∀ cap, reFind patALTER sql.data = none → reFind patCREATE sql.data = some cap →
        Database.enable_migration_crr sql = [sql, s!"SELECT crsql_as_crr('{String.mk cap}')"])
    ∧ (reFind patALTER sql.data = none → reFind patCREATE sql.data = none →
        Database.enable_migration_crr sql = [sql]) := by
  refine ⟨?_, ?_, fun cap hA => ?_, fun cap hA hC => ?_, fun hA hC => ?_⟩
  · rw [Database.apply_migration_sql, enable_migration_foldl, List.nil_append]
  · rintro (hC | hA)
    · cases hA : reFind patALTER sql.data with
      | none => simp [Database.enable_migration_crr, rewrite_of_claim,
          MigrationType.detect, detect_of_claim, hA, hC]
      | some cap => simp [Database.enable_migration_crr, rewrite_of_claim,
          MigrationType.detect, detect_of_claim, hA, hC]
    · cases hC : reFind patCREATE sql.data with
      | none => simp [Database.enable_migration_crr, rewrite_of_claim,
          MigrationType.detect, detect_of_claim, hA, hC]
      | some cap => simp [Database.enable_migration_crr, rewrite_of_claim,
          MigrationType.detect, detect_of_claim, hA, hC]
  · simp [Database.enable_migration_crr, MigrationType.detect, hA]
  · simp [Database.enable_migration_crr, MigrationType.detect, hA, hC]
  · simp [Database.enable_migration_crr, MigrationType.detect, hA, hC]

/-- C6 amended witness: a plain quoted CREATE TABLE statement, where the
source's rewrite and the claim's agree and produce the create ceremony. -/
theorem migration_rewrite_amended_witness :
    reFind patALTER ("CREATE TABLE \"foo\" (value TEXT)").data = none
    ∧ Database.enable_migration_crr "CREATE TABLE \"foo\" (value TEXT)"
      = rewrite_of_claim "CREATE TABLE \"foo\" (value TEXT)" :=
  ⟨by decide,
    (migration_rewrite_amended [] "CREATE TABLE \"foo\" (value TEXT)").2.1
      (Or.inr (by decide))⟩

/-- The alphabet lookup inverts the alphabet index. -/
theorem b64index_b64char : ∀ i < 64, b64index (b64char i) = some i := by decide

/-- No alphabet character is the padding character. -/
theorem b64char_ne_pad : ∀ i < 64, b64char i ≠ '=' := by decide

/-- Standard base64 decoding inverts encoding on byte lists. -/
theorem b64decode_encode :
    ∀ v : List Nat, (∀ x ∈ v, x < 256) → b64decode (b64encode v) = some v
  | [], _ => rfl
  | [a], h => by
    have ha : a < 256 := h a (by simp)
    have h1 : a / 4 < 64 := by omega
    have h2 : a % 4 * 16 < 64 := by omega
    show b64decode [b64char (a / 4), b64char (a % 4 * 16), '=', '='] = some [a]
    rw [b64decode, if_pos ⟨rfl, rfl⟩, if_pos rfl,
      b64index_b64char _ h1, b64index_b64char _ h2]
    show (if a % 4 * 16 % 16 = 0 then some [a / 4 * 4 + a % 4 * 16 / 16] else none)
      = some [a]
    rw [if_pos (by omega)]
    simp only [Option.some.injEq, List.cons.injEq, and_true]
    omega
  | [a, b], h => by
    have ha : a < 256 := h a (by simp)
    have hb : b < 256 := h b (by simp)
    have h1 : a / 4 < 64 := by omega
    have h2 : a % 4 * 16 + b / 16 < 64 := by omega
    have h3 : b % 16 * 4 < 64 := by omega
    show b64decode [b64char (a / 4), b64char (a % 4 * 16 + b / 16),
        b64char (b % 16 * 4), '='] = some [a, b]
    rw [b64decode, if_neg (fun hcon => b64char_ne_pad _ h3 hcon.1), if_pos rfl,
      if_pos rfl, b64index_b64char _ h1, b64index_b64char _ h2, b64index_b64char _ h3]
    show (if b % 16 * 4 % 4 = 0 then
        some [a / 4 * 4 + (a % 4 * 16 + b / 16) / 16,
          (a % 4 * 16 + b / 16) % 16 * 16 + b % 16 * 4 / 4] else none)
      = some [a, b]
    rw [if_pos (by omega)]
    simp only [Option.some.injEq, List.cons.injEq, and_true]
    omega
  | a :: b :: c :: rest, h => by
    have ha : a < 256 := h a (by simp)
    have hb : b < 256 := h b (by simp)
    have hc : c < 256 := h c (by simp)
    have ih := b64decode_encode rest fun x hx => h x (by simp [hx])
    have h1 : a / 4 < 64 := by omega
    have h2 : a % 4 * 16 + b / 16 < 64 := by omega
    have h3 : b % 16 * 4 + c / 64 < 64 := by omega
    have h4 : c % 64 < 64 := by omega
    show b64decode (b64char (a / 4) :: b64char (a % 4 * 16 + b / 16)
        :: b64char (b % 16 * 4 + c / 64) :: b64char (c % 64) :: b64encode rest)
      = some (a :: b :: c :: rest)
    rw [b64decode, if_neg (fun hcon => b64char_ne_pad _ h3 hcon.1),
      if_neg (b64char_ne_pad _ h4),
      b64index_b64char _ h1, b64index_b64char _ h2, b64index_b64char _ h3,
      b64index_b64char _ h4, ih]
    simp only [Option.map_some', Option.some.injEq, List.cons.injEq, and_true]
    refine ⟨by omega, by omega, by omega⟩

/-- A `u8` round-trips through its JSON number. -/
theorem byteFromJson_natCast (x : Nat) (hx : x < 256) :
    byteFromJson (.num (Nat.cast x)) = some x := by
  simp [byteFromJson, hx]

/-- A byte vector round-trips through its JSON array. -/
theorem bytesFromJson_map (b : List Nat) (h : ∀ x ∈ b, x < 256) :
    bytesFromJson (b.map fun byte => Json.num (Nat.cast byte)) = some b := by
  induction b with
  | nil => rfl
  | cons x t ih =>
    have hx := h x (List.mem_cons_self x t)
    have ht := ih fun y hy => h y (List.mem_cons_of_mem x hy)
    simp [bytesFromJson, byteFromJson_natCast x hx, ht]

/-- A `Value` round-trips through its JSON form. -/
theorem value_roundtrip (v : Value) (h : v.wf) : Value.fromJson v.toJson = some v := by
  cases v with
  | Null => rfl
  | Integer i => simp [Value.toJson, Value.fromJson, intFromJson]
  | Real x => simp [Value.toJson, Value.fromJson]
  | Text s => simp [Value.toJson, Value.fromJson]
  | Blob b =>
    have hb : ∀ x ∈ b, x < 256 := h
    simp [Value.toJson, Value.fromJson, bytesFromJson_map b hb]

/-- The optional `cid` field round-trips. -/
theorem cidFromJson_roundtrip (o : Option String) :
    cidFromJson ((o.map Json.str).getD .null) = some o := by
  cases o <;> rfl

/-- C9: serializing a `Changeset` to JSON and deserializing the result
yields the identical `Changeset`, for every table name, every `pk` and
`val` of any of the five storage classes, optional `cid`, `i64` versions
and byte-vector `site_id` (serialized as base64). -/
theorem changeset_json_roundtrip (cs : Changeset) (hpk : cs.pk.wf) (hval : cs.val.wf)
    (hsite : ∀ b ∈ cs.site_id, b < 256) :
    Changeset.fromJson cs.toJson = some cs := by
  have h1 := value_roundtrip cs.pk hpk
  have h2 := value_roundtrip cs.val hval
  have h3 : serde_base64.deserialize (serde_base64.serialize cs.site_id)
      = some cs.site_id := by
    rw [serde_base64.serialize, serde_base64.deserialize]
    exact b64decode_encode cs.site_id hsite
  simp [Changeset.toJson, Changeset.fromJson, List.lookup, h1, h2, h3,
    cidFromJson_roundtrip, intFromJson]

/-- C9 witness: a concrete changeset with text and blob payloads and a
16-byte site id round-trips. -/
theorem changeset_json_roundtrip_witness :
    Changeset.fromJson exChangeset.toJson = some exChangeset :=
  changeset_json_roundtrip exChangeset trivial
    (by show ∀ x ∈ [(0 : Nat), 255], x < 256; decide) (by decide)

end CrrServer
